import Mathlib

/-!
Verification of the tiered recommendation-orchestration engine
(`app/services/recommendation_engine.py`, `app/services/recommendation_service.py`,
`app/services/cache.py`, `app/api/routers/recommendations.py`,
`app/core/config.py`).

Python floats are modelled as `ℚ` (all properties proved here are
order-theoretic and survive rounding), Python strings as `String`,
Python dicts (which preserve insertion order) as association lists,
and `md5` digests as an abstract function parameter.
-/

set_option maxHeartbeats 1000000

/-- Python's `str.lower()` (character-wise lowercasing). -/
def pyLower (s : String) : String := String.mk (s.toList.map Char.toLower)

/-- Python's `str.strip()`: drop whitespace from both ends. -/
def pyStrip (s : String) : String :=
  String.mk (((s.toList.dropWhile Char.isWhitespace).reverse.dropWhile
    Char.isWhitespace).reverse)

/-- Helper for `str.split()`: accumulate maximal nonempty runs of
non-whitespace characters. -/
def wordsAux : List Char → List Char → List (List Char)
  | [], acc => if acc.isEmpty then [] else [acc.reverse]
  | c :: cs, acc =>
    if c.isWhitespace then
      if acc.isEmpty then wordsAux cs [] else acc.reverse :: wordsAux cs []
    else wordsAux cs (c :: acc)

/-- Python's no-argument `str.split()`: whitespace-separated words, never
producing empty strings. -/
def pySplitWhitespace (s : String) : List String :=
  (wordsAux s.toList []).map (fun l => String.mk l)

/-- Python's substring test `needle in hay`. -/
def isSubstring (needle hay : String) : Bool :=
  decide (List.IsInfix needle.toList hay.toList)

/-- A recommendation item, the dict shape produced by the providers and the
mock generators: `id`, `title`, `author`, `summary`, optional `genre` and a
`match_score`.  A missing `genre` is `none` (the code reads it with
`item.get("genre", "unknown")`). -/
structure Item where
  id : String := ""
  title : String := ""
  author : String := ""
  summary : String := ""
  genre : Option String := none
  match_score : ℚ := 1/2
deriving DecidableEq, Repr

/-- Association-list lookup, modelling `dict.__getitem__` / `key in dict`. -/
def alookup {K V : Type} [DecidableEq K] (k : K) : List (K × V) → Option V
  | [] => none
  | (k', v) :: rest => if k' = k then some v else alookup k rest

/-- Association-list in-place value replacement, modelling `dict[key] = v`
for a key that is already present (Python dicts keep the key's position). -/
def areplace {K V : Type} [DecidableEq K] (k : K) (v : V) :
    List (K × V) → List (K × V)
  | [] => []
  | (k', v') :: rest =>
    if k' = k then (k', v) :: rest else (k', v') :: areplace k v rest

/-- The canonical dedup key of `_deduplicate_items`
(`recommendation_engine.py:912-926`): the `id` when truthy, else
`lowercase(stripped title)|lowercase(stripped author)`; hashed with md5 when
longer than 100 characters.  `md5hex` is the digest function, kept abstract. -/
def canonKey (md5hex : String → String) (item : Item) : String :=
  let item_key :=
    if item.id = "" then
      pyStrip (pyLower item.title) ++ "|" ++ pyStrip (pyLower item.author)
    else item.id
  if 100 < item_key.length then md5hex item_key else item_key

/-- One iteration of the `for item in items` loop of `_deduplicate_items`
(`recommendation_engine.py:912-935`).  State: the insertion-ordered dict
`deduplicated` (the `unique_keys` set always equals its key set and is not
modelled separately) and `removed_count`. -/
def dedupStep (md5hex : String → String) (st : List (String × Item) × Nat)
    (item : Item) : List (String × Item) × Nat :=
  match alookup (canonKey md5hex item) st.1 with
  | none => (st.1 ++ [(canonKey md5hex item, item)], st.2)
  | some kept =>
      (if kept.match_score < item.match_score then
        areplace (canonKey md5hex item) item st.1
       else st.1,
       st.2 + 1)

/-- `_deduplicate_items` (`recommendation_engine.py:895-937`): returns
`(list(deduplicated.values()), removed_count)`. -/
def deduplicate_items (md5hex : String → String) (items : List Item) :
    List Item × Nat :=
  let st := items.foldl (dedupStep md5hex) ([], 0)
  (st.1.map Prod.snd, st.2)

/-- The dict invariant of the dedup loop: keys are distinct and every entry's
key is the canonical key of its stored item. -/
def GoodAcc (md5hex : String → String) (acc : List (String × Item)) : Prop :=
  (acc.map Prod.fst).Nodup ∧ ∀ p ∈ acc, p.1 = canonKey md5hex p.2

theorem alookup_append {K V : Type} [DecidableEq K] (k : K)
    (l₁ l₂ : List (K × V)) :
    alookup k (l₁ ++ l₂) =
      match alookup k l₁ with
      | some v => some v
      | none => alookup k l₂ := by
  induction l₁ with
  | nil => simp [alookup]
  | cons p rest ih =>
      obtain ⟨k', v'⟩ := p
      by_cases h : k' = k <;> simp [alookup, h, ih]

theorem alookup_eq_none_of_not_mem_keys {K V : Type} [DecidableEq K] (k : K)
    (l : List (K × V)) (h : k ∉ l.map Prod.fst) : alookup k l = none := by
  induction l with
  | nil => rfl
  | cons p rest ih =>
      obtain ⟨k', v'⟩ := p
      simp only [List.map_cons, List.mem_cons] at h
      push_neg at h
      have hk : ¬ (k' = k) := fun hh => h.1 hh.symm
      simp [alookup, hk, ih h.2]

theorem not_mem_keys_of_alookup_eq_none {K V : Type} [DecidableEq K] {k : K}
    {l : List (K × V)} (h : alookup k l = none) : k ∉ l.map Prod.fst := by
  induction l with
  | nil => simp
  | cons p rest ih =>
      obtain ⟨k', v'⟩ := p
      by_cases hk : k' = k
      · simp [alookup, hk] at h
      · simp only [alookup, hk, if_false] at h
        simp only [List.map_cons, List.mem_cons]
        push_neg
        exact ⟨fun hh => hk hh.symm, ih h⟩

theorem mem_keys_of_alookup_eq_some {K V : Type} [DecidableEq K] {k : K}
    {v : V} {l : List (K × V)} (h : alookup k l = some v) :
    k ∈ l.map Prod.fst := by
  induction l with
  | nil => simp [alookup] at h
  | cons p rest ih =>
      obtain ⟨k', v'⟩ := p
      by_cases hk : k' = k
      · simp [hk]
      · simp only [alookup, hk, if_false] at h
        simp [ih h]

theorem areplace_map_fst {K V : Type} [DecidableEq K] (k : K) (v : V)
    (l : List (K × V)) : (areplace k v l).map Prod.fst = l.map Prod.fst := by
  induction l with
  | nil => rfl
  | cons p rest ih =>
      obtain ⟨k', v'⟩ := p
      by_cases h : k' = k <;> simp [areplace, h, ih]

theorem alookup_areplace_self {K V : Type} [DecidableEq K] {k : K} {v₀ v : V}
    {l : List (K × V)} (h : alookup k l = some v₀) :
    alookup k (areplace k v l) = some v := by
  induction l with
  | nil => simp [alookup] at h
  | cons p rest ih =>
      obtain ⟨k', v'⟩ := p
      by_cases hk : k' = k
      · simp [areplace, alookup, hk]
      · simp only [alookup, hk, if_false] at h
        simp [areplace, alookup, hk, ih h]

theorem alookup_areplace_ne {K V : Type} [DecidableEq K] {k k' : K} (v : V)
    (l : List (K × V)) (h : k' ≠ k) :
    alookup k' (areplace k v l) = alookup k' l := by
  induction l with
  | nil => rfl
  | cons p rest ih =>
      obtain ⟨k₀, v₀⟩ := p
      by_cases hk : k₀ = k
      · subst hk
        have hne : ¬ (k₀ = k') := fun hh => h (hh ▸ rfl)
        simp [areplace, alookup, hne]
      · simp only [areplace, if_neg hk, alookup, ih]

theorem mem_areplace {K V : Type} [DecidableEq K] {k : K} {v : V}
    {l : List (K × V)} {p : K × V} (hp : p ∈ areplace k v l) :
    p ∈ l ∨ p = (k, v) := by
  induction l with
  | nil => simp [areplace] at hp
  | cons q rest ih =>
      obtain ⟨k₀, v₀⟩ := q
      by_cases hk : k₀ = k
      · rw [areplace, if_pos hk] at hp
        rcases List.mem_cons.mp hp with h | h
        · right
          rw [h, hk]
        · left
          exact List.mem_cons_of_mem _ h
      · rw [areplace, if_neg hk] at hp
        rcases List.mem_cons.mp hp with h | h
        · left
          rw [h]
          exact List.mem_cons_self _ _
        · rcases ih h with h' | h'
          · left
            exact List.mem_cons_of_mem _ h'
          · right
            exact h'

theorem alookup_of_mem_nodup {K V : Type} [DecidableEq K]
    {l : List (K × V)} {p : K × V} (hnd : (l.map Prod.fst).Nodup)
    (hp : p ∈ l) : alookup p.1 l = some p.2 := by
  induction l with
  | nil => simp at hp
  | cons q rest ih =>
      obtain ⟨k₀, v₀⟩ := q
      simp only [List.map_cons, List.nodup_cons] at hnd
      rcases List.mem_cons.mp hp with h | h
      · rw [h]
        simp [alookup]
      · have hk : k₀ ≠ p.1 := by
          intro hkk
          exact hnd.1 (hkk ▸ (List.mem_map.mpr ⟨p, h, rfl⟩))
        simp [alookup, hk, ih hnd.2 h]

theorem dedupStep_of_none {md5hex : String → String}
    {st : List (String × Item) × Nat} {item : Item}
    (hl : alookup (canonKey md5hex item) st.1 = none) :
    dedupStep md5hex st item = (st.1 ++ [(canonKey md5hex item, item)], st.2) := by
  unfold dedupStep
  rw [hl]

theorem dedupStep_of_some {md5hex : String → String}
    {st : List (String × Item) × Nat} {item kept : Item}
    (hl : alookup (canonKey md5hex item) st.1 = some kept) :
    dedupStep md5hex st item =
      (if kept.match_score < item.match_score then
        areplace (canonKey md5hex item) item st.1
       else st.1, st.2 + 1) := by
  unfold dedupStep
  rw [hl]

theorem dedupStep_good (md5hex : String → String)
    (st : List (String × Item) × Nat) (item : Item)
    (hg : GoodAcc md5hex st.1) : GoodAcc md5hex (dedupStep md5hex st item).1 := by
  obtain ⟨hnd, hkeys⟩ := hg
  rcases hl : alookup (canonKey md5hex item) st.1 with _ | kept
  · rw [dedupStep_of_none hl]
    constructor
    · simp only [List.map_append, List.map_cons, List.map_nil]
      rw [List.nodup_append]
      refine ⟨hnd, List.nodup_singleton _, ?_⟩
      intro a ha hb
      simp only [List.mem_singleton] at hb
      subst hb
      exact (not_mem_keys_of_alookup_eq_none hl) ha
    · intro p hp
      rcases List.mem_append.mp hp with h | h
      · exact hkeys p h
      · simp only [List.mem_singleton] at h
        subst h
        rfl
  · rw [dedupStep_of_some hl]
    by_cases hsc : kept.match_score < item.match_score
    · simp only [if_pos hsc]
      constructor
      · rw [areplace_map_fst]
        exact hnd
      · intro p hp
        rcases mem_areplace hp with h | h
        · exact hkeys p h
        · subst h
          rfl
    · simp only [if_neg hsc]
      exact ⟨hnd, hkeys⟩

theorem dedupFold_good (md5hex : String → String) (l : List Item)
    (st : List (String × Item) × Nat) (hg : GoodAcc md5hex st.1) :
    GoodAcc md5hex (l.foldl (dedupStep md5hex) st).1 := by
  induction l generalizing st with
  | nil => exact hg
  | cons x rest ih =>
      rw [List.foldl_cons]
      exact ih _ (dedupStep_good md5hex st x hg)

theorem dedupFold_lookup_mono (md5hex : String → String) (l : List Item)
    (st : List (String × Item) × Nat) (k : String) (v : Item)
    (hv : alookup k st.1 = some v) :
    ∃ v', alookup k (l.foldl (dedupStep md5hex) st).1 = some v' ∧
      v.match_score ≤ v'.match_score := by
  induction l generalizing st v with
  | nil => exact ⟨v, hv, le_refl _⟩
  | cons x rest ih =>
      rw [List.foldl_cons]
      rcases hl : alookup (canonKey md5hex x) st.1 with _ | kept
      · rw [dedupStep_of_none hl]
        have hsome : alookup k (st.1 ++ [(canonKey md5hex x, x)]) = some v := by
          rw [alookup_append, hv]
        exact ih (st.1 ++ [(canonKey md5hex x, x)], st.2) v hsome
      · rw [dedupStep_of_some hl]
        by_cases hsc : kept.match_score < x.match_score
        · simp only [if_pos hsc]
          by_cases hk : k = canonKey md5hex x
          · have hkv : v = kept := by
              rw [← hk] at hl
              rw [hv] at hl
              exact Option.some_inj.mp hl
            have hsome : alookup k (areplace (canonKey md5hex x) x st.1) = some x := by
              rw [hk]
              apply alookup_areplace_self
              rw [← hk]
              exact hv
            obtain ⟨v', h1, h2⟩ :=
              ih (areplace (canonKey md5hex x) x st.1, st.2 + 1) x hsome
            refine ⟨v', h1, le_trans ?_ h2⟩
            rw [hkv]
            exact le_of_lt hsc
          · have hsome : alookup k (areplace (canonKey md5hex x) x st.1) = some v := by
              rw [alookup_areplace_ne _ _ hk]
              exact hv
            exact ih (areplace (canonKey md5hex x) x st.1, st.2 + 1) v hsome
        · simp only [if_neg hsc]
          exact ih (st.1, st.2 + 1) v hv

theorem dedupFold_coverage (md5hex : String → String) (l : List Item)
    (st : List (String × Item) × Nat) (x : Item) (hx : x ∈ l) :
    ∃ v', alookup (canonKey md5hex x) (l.foldl (dedupStep md5hex) st).1 = some v' ∧
      x.match_score ≤ v'.match_score := by
  induction l generalizing st with
  | nil => simp at hx
  | cons y rest ih =>
      rw [List.foldl_cons]
      rcases List.mem_cons.mp hx with h | h
      · subst h
        rcases hl : alookup (canonKey md5hex x) st.1 with _ | kept
        · rw [dedupStep_of_none hl]
          have hsome : alookup (canonKey md5hex x)
              (st.1 ++ [(canonKey md5hex x, x)]) = some x := by
            rw [alookup_append, hl]
            simp [alookup]
          exact dedupFold_lookup_mono md5hex rest
            (st.1 ++ [(canonKey md5hex x, x)], st.2) _ x hsome
        · rw [dedupStep_of_some hl]
          by_cases hsc : kept.match_score < x.match_score
          · simp only [if_pos hsc]
            have hsome : alookup (canonKey md5hex x)
                (areplace (canonKey md5hex x) x st.1) = some x :=
              alookup_areplace_self hl
            exact dedupFold_lookup_mono md5hex rest
              (areplace (canonKey md5hex x) x st.1, st.2 + 1) _ x hsome
          · simp only [if_neg hsc]
            obtain ⟨v', h1, h2⟩ :=
              dedupFold_lookup_mono md5hex rest (st.1, st.2 + 1) _ kept hl
            exact ⟨v', h1, le_trans (not_lt.mp hsc) h2⟩
      · exact ih (dedupStep md5hex st y) h

theorem dedupFold_length (md5hex : String → String) (l : List Item)
    (st : List (String × Item) × Nat) :
    (l.foldl (dedupStep md5hex) st).1.length + (l.foldl (dedupStep md5hex) st).2 =
      st.1.length + st.2 + l.length := by
  induction l generalizing st with
  | nil => simp
  | cons x rest ih =>
      rw [List.foldl_cons]
      rw [ih]
      rcases hl : alookup (canonKey md5hex x) st.1 with _ | kept
      · rw [dedupStep_of_none hl]
        simp only [List.length_append, List.length_cons, List.length_nil]
        omega
      · rw [dedupStep_of_some hl]
        by_cases hsc : kept.match_score < x.match_score
        · simp only [if_pos hsc]
          have : (areplace (canonKey md5hex x) x st.1).length = st.1.length := by
            have h1 := congrArg List.length (areplace_map_fst (canonKey md5hex x) x st.1)
            simpa using h1
          simp only [this, List.length_cons]
          omega
        · simp only [if_neg hsc, List.length_cons]
          omega

/-- C3: `_deduplicate_items` returns a pair `(unique, removed_count)` where no
two output items share a canonical key, `removed_count` is exactly
`len(input) - len(output)`, and on key collisions the kept item's
`match_score` is maximal among all input items with that key. -/
theorem deduplicate_items_spec (md5hex : String → String) (items : List Item) :
    ((deduplicate_items md5hex items).1.map (canonKey md5hex)).Nodup
    ∧ (deduplicate_items md5hex items).2 =
        items.length - (deduplicate_items md5hex items).1.length
    ∧ ∀ u ∈ (deduplicate_items md5hex items).1, ∀ x ∈ items,
        canonKey md5hex x = canonKey md5hex u → x.match_score ≤ u.match_score := by
  have hgood : GoodAcc md5hex ((items.foldl (dedupStep md5hex) ([], 0)).1) :=
    dedupFold_good md5hex items ([], 0) ⟨List.nodup_nil, by simp⟩
  obtain ⟨hnd, hkeys⟩ := hgood
  have hmapeq : ((items.foldl (dedupStep md5hex) ([], 0)).1.map Prod.snd).map
      (canonKey md5hex) = (items.foldl (dedupStep md5hex) ([], 0)).1.map Prod.fst := by
    rw [List.map_map]
    apply List.map_congr_left
    intro p hp
    exact (hkeys p hp).symm
  refine ⟨?_, ?_, ?_⟩
  · unfold deduplicate_items
    simp only
    rw [hmapeq]
    exact hnd
  · have hlen := dedupFold_length md5hex items ([], 0)
    unfold deduplicate_items
    simp only [List.length_map]
    simp only [List.length_nil] at hlen
    omega
  · intro u hu x hx hkey
    unfold deduplicate_items at hu
    simp only [List.mem_map] at hu
    obtain ⟨p, hp, hu'⟩ := hu
    have hk : p.1 = canonKey md5hex p.2 := hkeys p hp
    have hloo : alookup p.1 ((items.foldl (dedupStep md5hex) ([], 0)).1) = some p.2 :=
      alookup_of_mem_nodup hnd hp
    obtain ⟨v', hv1, hv2⟩ := dedupFold_coverage md5hex items ([], 0) x hx
    rw [← hu']
    rw [← hu'] at hkey
    rw [hkey, ← hk, hloo] at hv1
    have hpv : p.2 = v' := Option.some_inj.mp hv1
    rw [hpv]
    exact hv2

/-- Spec scenario items: same id, scores 0.5 and 0.8. -/
def itemA05 : Item := { id := "a", title := "X", author := "A", match_score := 1/2 }

def itemA08 : Item := { id := "a", title := "X", author := "A", match_score := 4/5 }

/-- Witness for C3 at the spec's own scenario: two items with id "a" and
scores 0.5 / 0.8; the kept item dominates the dropped one. -/
theorem deduplicate_items_spec_witness :
    itemA05.match_score ≤ itemA08.match_score
    ∧ (deduplicate_items (fun s => s) [itemA05, itemA08]).2 =
        2 - (deduplicate_items (fun s => s) [itemA05, itemA08]).1.length := by
  have h := deduplicate_items_spec (fun s => s) [itemA05, itemA08]
  refine ⟨?_, ?_⟩
  · apply h.2.2 itemA08 ?_ itemA05 ?_ ?_
    · norm_num [deduplicate_items, dedupStep, canonKey, alookup, areplace,
        itemA05, itemA08]
    · simp
    · rfl
  · exact h.2.1

/-- `settings.MAX_RECOMMENDATIONS` (`config.py:53`). -/
def MAX_RECOMMENDATIONS : Nat := 10

/-- `settings.MAX_ITEMS_PER_AUTHOR` (`config.py:55`). -/
def MAX_ITEMS_PER_AUTHOR : Nat := 3

/-- `settings.MAX_ITEMS_PER_GENRE` (`config.py:56`). -/
def MAX_ITEMS_PER_GENRE : Nat := 3

/-- The comparison of `sorted(items, key=lambda x: x.get("match_score", 0),
reverse=True)` (`recommendation_engine.py:953`): `a` may come before `b` iff
`b.match_score ≤ a.match_score`. -/
def scoreDescLE (a b : Item) : Bool := decide (b.match_score ≤ a.match_score)

/-- Python's `sorted` is a stable sort; `List.mergeSort` with the total
relation `scoreDescLE` is the same function. -/
def sortedByScoreDesc (items : List Item) : List Item :=
  items.mergeSort scoreDescLE

/-- `author = item.get("author", "").lower().strip()` (`recommendation_engine.py:962`). -/
def authorKey (item : Item) : String := pyStrip (pyLower item.author)

/-- `genre = item.get("genre", "unknown").lower().strip()` (`recommendation_engine.py:963`). -/
def genreKey (item : Item) : String := pyStrip (pyLower (item.genre.getD "unknown"))

/-- `counts[key] += 1` on a counter dict read with `.get(key, 0)`. -/
def bump (f : String → Nat) (k : String) : String → Nat :=
  fun k' => if k' = k then f k + 1 else f k'

/-- The `for item in sorted_items` loop of `_ensure_diversity`
(`recommendation_engine.py:960-978`): admit an item only when both its
author count and its genre count are strictly below the caps; after each
iteration stop as soon as `MAX_RECOMMENDATIONS` items were admitted. -/
def diversityScan (maxA maxG maxT : Nat) :
    (String → Nat) → (String → Nat) → List Item → List Item → List Item
  | _, _, acc, [] => acc
  | ac, gc, acc, item :: rest =>
    if ac (authorKey item) < maxA ∧ gc (genreKey item) < maxG then
      if maxT ≤ (acc ++ [item]).length then acc ++ [item]
      else
        diversityScan maxA maxG maxT (bump ac (authorKey item))
          (bump gc (genreKey item)) (acc ++ [item]) rest
    else
      if maxT ≤ acc.length then acc
      else diversityScan maxA maxG maxT ac gc acc rest

/-- `_ensure_diversity` (`recommendation_engine.py:939-980`). -/
def ensure_diversity (items : List Item) : List Item :=
  diversityScan MAX_ITEMS_PER_AUTHOR MAX_ITEMS_PER_GENRE MAX_RECOMMENDATIONS
    (fun _ => 0) (fun _ => 0) [] (sortedByScoreDesc items)

theorem scoreDescLE_trans : ∀ a b c : Item,
    scoreDescLE a b → scoreDescLE b c → scoreDescLE a c := by
  intro a b c hab hbc
  simp only [scoreDescLE, decide_eq_true_eq] at *
  exact le_trans hbc hab

theorem scoreDescLE_total : ∀ a b : Item, scoreDescLE a b || scoreDescLE b a := by
  intro a b
  simp only [scoreDescLE]
  rcases le_total a.match_score b.match_score with h | h
  · simp [h]
  · simp [h]

theorem diversityScan_author_count (maxA maxG maxT : Nat) (a : String)
    (l : List Item) :
    ∀ (ac gc : String → Nat) (acc : List Item),
      acc.countP (fun i => decide (authorKey i = a)) = ac a → ac a ≤ maxA →
      (diversityScan maxA maxG maxT ac gc acc l).countP
        (fun i => decide (authorKey i = a)) ≤ maxA := by
  induction l with
  | nil =>
      intro ac gc acc hinv hle
      rw [diversityScan, hinv]
      exact hle
  | cons item rest ih =>
      intro ac gc acc hinv hle
      rw [diversityScan]
      by_cases hadm : ac (authorKey item) < maxA ∧ gc (genreKey item) < maxG
      · rw [if_pos hadm]
        have hacc2 : (acc ++ [item]).countP (fun i => decide (authorKey i = a)) =
            ac a + (if authorKey item = a then 1 else 0) := by
          rw [List.countP_append, hinv]
          by_cases hia : authorKey item = a
          · simp [List.countP, List.countP.go, hia]
          · simp [List.countP, List.countP.go, hia]
        have hacc2le : (acc ++ [item]).countP (fun i => decide (authorKey i = a)) ≤ maxA := by
          rw [hacc2]
          by_cases hia : authorKey item = a
          · rw [hia] at hadm
            simp only [if_pos hia]
            omega
          · simp only [if_neg hia]
            omega
        by_cases hbr : maxT ≤ (acc ++ [item]).length
        · rw [if_pos hbr]
          exact hacc2le
        · rw [if_neg hbr]
          apply ih (bump ac (authorKey item)) (bump gc (genreKey item)) (acc ++ [item])
          · rw [hacc2]
            by_cases hia : authorKey item = a
            · have hne : a = authorKey item := hia.symm
              simp only [bump, if_pos hne, if_pos hia, ← hia]
              simp
            · have hne : ¬ (a = authorKey item) := fun h => hia h.symm
              simp only [bump, if_neg hne, if_neg hia]
              simp
          · by_cases hia : authorKey item = a
            · have hne : a = authorKey item := hia.symm
              simp only [bump, if_pos hne]
              have h1 := hadm.1
              rw [hia] at h1
              omega
            · have hne : ¬ (a = authorKey item) := fun h => hia h.symm
              simp only [bump, if_neg hne]
              exact hle
      · rw [if_neg hadm]
        by_cases hbr : maxT ≤ acc.length
        · rw [if_pos hbr, hinv]
          exact hle
        · rw [if_neg hbr]
          exact ih ac gc acc hinv hle

theorem diversityScan_genre_count (maxA maxG maxT : Nat) (g : String)
    (l : List Item) :
    ∀ (ac gc : String → Nat) (acc : List Item),
      acc.countP (fun i => decide (genreKey i = g)) = gc g → gc g ≤ maxG →
      (diversityScan maxA maxG maxT ac gc acc l).countP
        (fun i => decide (genreKey i = g)) ≤ maxG := by
  induction l with
  | nil =>
      intro ac gc acc hinv hle
      rw [diversityScan, hinv]
      exact hle
  | cons item rest ih =>
      intro ac gc acc hinv hle
      rw [diversityScan]
      by_cases hadm : ac (authorKey item) < maxA ∧ gc (genreKey item) < maxG
      · rw [if_pos hadm]
        have hacc2 : (acc ++ [item]).countP (fun i => decide (genreKey i = g)) =
            gc g + (if genreKey item = g then 1 else 0) := by
          rw [List.countP_append, hinv]
          by_cases hig : genreKey item = g
          · simp [List.countP, List.countP.go, hig]
          · simp [List.countP, List.countP.go, hig]
        have hacc2le : (acc ++ [item]).countP (fun i => decide (genreKey i = g)) ≤ maxG := by
          rw [hacc2]
          by_cases hig : genreKey item = g
          · rw [hig] at hadm
            simp only [if_pos hig]
            omega
          · simp only [if_neg hig]
            omega
        by_cases hbr : maxT ≤ (acc ++ [item]).length
        · rw [if_pos hbr]
          exact hacc2le
        · rw [if_neg hbr]
          apply ih (bump ac (authorKey item)) (bump gc (genreKey item)) (acc ++ [item])
          · rw [hacc2]
            by_cases hig : genreKey item = g
            · have hne : g = genreKey item := hig.symm
              simp only [bump, if_pos hne, if_pos hig, ← hig]
              simp
            · have hne : ¬ (g = genreKey item) := fun h => hig h.symm
              simp only [bump, if_neg hne, if_neg hig]
              simp
          · by_cases hig : genreKey item = g
            · have hne : g = genreKey item := hig.symm
              simp only [bump, if_pos hne]
              have h2 := hadm.2
              rw [hig] at h2
              omega
            · have hne : ¬ (g = genreKey item) := fun h => hig h.symm
              simp only [bump, if_neg hne]
              exact hle
      · rw [if_neg hadm]
        by_cases hbr : maxT ≤ acc.length
        · rw [if_pos hbr, hinv]
          exact hle
        · rw [if_neg hbr]
          exact ih ac gc acc hinv hle

theorem diversityScan_length (maxA maxG maxT : Nat) (l : List Item) :
    ∀ (ac gc : String → Nat) (acc : List Item), acc.length < maxT →
      (diversityScan maxA maxG maxT ac gc acc l).length ≤ maxT := by
  induction l with
  | nil =>
      intro ac gc acc h
      rw [diversityScan]
      exact le_of_lt h
  | cons item rest ih =>
      intro ac gc acc h
      rw [diversityScan]
      by_cases hadm : ac (authorKey item) < maxA ∧ gc (genreKey item) < maxG
      · rw [if_pos hadm]
        have hlen : (acc ++ [item]).length = acc.length + 1 := by simp
        by_cases hbr : maxT ≤ (acc ++ [item]).length
        · rw [if_pos hbr, hlen]
          omega
        · rw [if_neg hbr]
          apply ih
          omega
      · rw [if_neg hadm]
        by_cases hbr : maxT ≤ acc.length
        · rw [if_pos hbr]
          omega
        · rw [if_neg hbr]
          exact ih ac gc acc h

theorem diversityScan_sublist (maxA maxG maxT : Nat) (l : List Item) :
    ∀ (ac gc : String → Nat) (acc : List Item),
      ∃ s, diversityScan maxA maxG maxT ac gc acc l = acc ++ s ∧ s.Sublist l := by
  induction l with
  | nil =>
      intro ac gc acc
      exact ⟨[], by rw [diversityScan]; simp, List.Sublist.refl _⟩
  | cons item rest ih =>
      intro ac gc acc
      rw [diversityScan]
      by_cases hadm : ac (authorKey item) < maxA ∧ gc (genreKey item) < maxG
      · rw [if_pos hadm]
        by_cases hbr : maxT ≤ (acc ++ [item]).length
        · rw [if_pos hbr]
          exact ⟨[item], rfl, by simp⟩
        · rw [if_neg hbr]
          obtain ⟨s, hs1, hs2⟩ :=
            ih (bump ac (authorKey item)) (bump gc (genreKey item)) (acc ++ [item])
          refine ⟨item :: s, ?_, List.Sublist.cons₂ item hs2⟩
          rw [hs1, List.append_assoc]
          rfl
      · rw [if_neg hadm]
        by_cases hbr : maxT ≤ acc.length
        · rw [if_pos hbr]
          exact ⟨[], by simp, List.nil_sublist _⟩
        · rw [if_neg hbr]
          obtain ⟨s, hs1, hs2⟩ := ih ac gc acc
          exact ⟨s, hs1, List.Sublist.cons item hs2⟩

/-- C4: `_ensure_diversity` output has at most `MAX_ITEMS_PER_AUTHOR` items
per (normalised) author and at most `MAX_ITEMS_PER_GENRE` per genre, at most
`MAX_RECOMMENDATIONS` items in total, is admitted by scanning a stable
descending sort of the input (the output is a sublist of that sort and is
itself sorted by `match_score` descending), the sort is a permutation of the
input, and ties keep the original input order (any score-ordered pair of the
input, equal scores included, stays in order in the sort). -/
theorem ensure_diversity_spec (items : List Item) :
    (∀ a : String, (ensure_diversity items).countP
        (fun i => decide (authorKey i = a)) ≤ MAX_ITEMS_PER_AUTHOR)
    ∧ (∀ g : String, (ensure_diversity items).countP
        (fun i => decide (genreKey i = g)) ≤ MAX_ITEMS_PER_GENRE)
    ∧ (ensure_diversity items).length ≤ MAX_RECOMMENDATIONS
    ∧ (ensure_diversity items).Sublist (sortedByScoreDesc items)
    ∧ (ensure_diversity items).Pairwise
        (fun a b => b.match_score ≤ a.match_score)
    ∧ (sortedByScoreDesc items).Perm items
    ∧ (∀ a b : Item, [a, b].Sublist items → b.match_score ≤ a.match_score →
        [a, b].Sublist (sortedByScoreDesc items)) := by
  obtain ⟨s, hs1, hs2⟩ :=
    diversityScan_sublist MAX_ITEMS_PER_AUTHOR MAX_ITEMS_PER_GENRE
      MAX_RECOMMENDATIONS (sortedByScoreDesc items)
      (fun _ => 0) (fun _ => 0) []
  have hout : (ensure_diversity items).Sublist (sortedByScoreDesc items) := by
    unfold ensure_diversity
    rw [hs1]
    simpa using hs2
  have hsorted : (sortedByScoreDesc items).Pairwise
      (fun a b => scoreDescLE a b = true) :=
    List.sorted_mergeSort scoreDescLE_trans scoreDescLE_total items
  refine ⟨?_, ?_, ?_, hout, ?_, ?_, ?_⟩
  · intro a
    apply diversityScan_author_count MAX_ITEMS_PER_AUTHOR MAX_ITEMS_PER_GENRE
      MAX_RECOMMENDATIONS a (sortedByScoreDesc items) (fun _ => 0) (fun _ => 0) []
    · simp
    · simp
  · intro g
    apply diversityScan_genre_count MAX_ITEMS_PER_AUTHOR MAX_ITEMS_PER_GENRE
      MAX_RECOMMENDATIONS g (sortedByScoreDesc items) (fun _ => 0) (fun _ => 0) []
    · simp
    · simp
  · apply diversityScan_length MAX_ITEMS_PER_AUTHOR MAX_ITEMS_PER_GENRE
      MAX_RECOMMENDATIONS (sortedByScoreDesc items) (fun _ => 0) (fun _ => 0) []
    norm_num [MAX_RECOMMENDATIONS]
  · refine (hsorted.sublist hout).imp ?_
    intro a b h
    simpa [scoreDescLE] using h
  · exact List.mergeSort_perm items scoreDescLE
  · intro a b hab hscore
    apply List.pair_sublist_mergeSort scoreDescLE_trans scoreDescLE_total
    · simpa [scoreDescLE] using hscore
    · exact hab

/-- Two items by the same author with equal scores, for the C4 witness. -/
def witItemA : Item := { id := "w1", title := "T1", author := "A", match_score := 9/10 }

/-- Second C4 witness item. -/
def witItemB : Item := { id := "w2", title := "T2", author := "A", match_score := 9/10 }

/-- Witness for C4 at a concrete two-item list: equal scores keep input
order in the stable sort and the output respects the total cap. -/
theorem ensure_diversity_spec_witness :
    [witItemA, witItemB].Sublist (sortedByScoreDesc [witItemA, witItemB])
    ∧ (ensure_diversity [witItemA, witItemB]).length ≤ MAX_RECOMMENDATIONS := by
  have h := ensure_diversity_spec [witItemA, witItemB]
  refine ⟨?_, h.2.2.1⟩
  apply h.2.2.2.2.2.2 witItemA witItemB
  · exact List.Sublist.refl _
  · norm_num [witItemA, witItemB]

/-- `search_terms = set(search_term.lower().split())`
(`recommendation_engine.py:576`), as a duplicate-free token list. -/
def searchTokens (search_term : String) : List String :=
  (pySplitWhitespace (pyLower search_term)).dedup

/-- One clamp step of `_quick_semantic_scoring`
(`recommendation_engine.py:592-598`):
`score = min(1.0, score + 0.1 * n)` fired only `if n > 0`. -/
def scoreBump (s : ℚ) (n : Nat) : ℚ :=
  if 0 < n then min 1 (s + (1/10 : ℚ) * n) else s

/-- `sum(1 for term in search_terms if term in title or term in summary)`
(`recommendation_engine.py:589`), on the lowercased fields. -/
def termMatches (tokens : List String) (item : Item) : Nat :=
  tokens.countP (fun t =>
    isSubstring t (pyLower item.title) || isSubstring t (pyLower item.summary))

/-- `sum(1 for term in search_terms if term in title)`
(`recommendation_engine.py:596`). -/
def titleMatches (tokens : List String) (item : Item) : Nat :=
  tokens.countP (fun t => isSubstring t (pyLower item.title))

/-- The per-item update of `_quick_semantic_scoring`
(`recommendation_engine.py:579-602`): bump for title-or-summary matches,
then an extra bump for title matches.  (`author` is read by the loop but
never used.) -/
def quickScoreItem (tokens : List String) (item : Item) : Item :=
  { item with match_score :=
      (scoreBump (scoreBump item.match_score (termMatches tokens item))
        (titleMatches tokens item)) }

/-- `_quick_semantic_scoring` (`recommendation_engine.py:561-604`). -/
def quick_semantic_scoring (items : List Item) (search_term : String) :
    List Item :=
  items.map (quickScoreItem (searchTokens search_term))

theorem scoreBump_le_one {s : ℚ} (hs : s ≤ 1) (n : Nat) : scoreBump s n ≤ 1 := by
  unfold scoreBump
  by_cases h : 0 < n
  · rw [if_pos h]
    exact min_le_left _ _
  · rw [if_neg h]
    exact hs

theorem scoreBump_nonneg {s : ℚ} (h0 : 0 ≤ s) (n : Nat) : 0 ≤ scoreBump s n := by
  unfold scoreBump
  by_cases h : 0 < n
  · rw [if_pos h]
    refine le_min (by norm_num) ?_
    have : (0 : ℚ) ≤ (1/10 : ℚ) * n := by positivity
    linarith
  · rw [if_neg h]
    exact h0

theorem scoreBump_mono {s s' : ℚ} (hs' : s' ≤ 1) (hss : s ≤ s') {n m : Nat}
    (hnm : n ≤ m) : scoreBump s n ≤ scoreBump s' m := by
  unfold scoreBump
  by_cases hn : 0 < n
  · have hm : 0 < m := lt_of_lt_of_le hn hnm
    rw [if_pos hn, if_pos hm]
    apply min_le_min le_rfl
    have : (1/10 : ℚ) * n ≤ (1/10 : ℚ) * m := by
      apply mul_le_mul_of_nonneg_left _ (by norm_num)
      exact_mod_cast hnm
    linarith
  · rw [if_neg hn]
    by_cases hm : 0 < m
    · rw [if_pos hm]
      refine le_min (le_trans hss hs') ?_
      have : (0 : ℚ) ≤ (1/10 : ℚ) * m := by positivity
      linarith
    · rw [if_neg hm]
      exact hss

/-- C5 (amended): provided the incoming scores lie in `[0, 1]`, every output
score of `_quick_semantic_scoring` lies in `[0, 1]`; and provided the
incoming score is at most `1`, replacing an item's title by one that is
matched by at least the same search tokens (in particular, adding a matching
token to it) never decreases the resulting score. -/
theorem quick_semantic_scoring_amended (search_term : String) :
    (∀ items : List Item,
      (∀ i ∈ items, 0 ≤ i.match_score ∧ i.match_score ≤ 1) →
      ∀ j ∈ quick_semantic_scoring items search_term,
        0 ≤ j.match_score ∧ j.match_score ≤ 1)
    ∧ (∀ (i : Item) (t' : String), i.match_score ≤ 1 →
        (∀ tok ∈ searchTokens search_term,
          isSubstring tok (pyLower i.title) → isSubstring tok (pyLower t')) →
        (quickScoreItem (searchTokens search_term) i).match_score ≤
          (quickScoreItem (searchTokens search_term)
            { i with title := t' }).match_score) := by
  constructor
  · intro items h j hj
    unfold quick_semantic_scoring at hj
    obtain ⟨i, hi, hji⟩ := List.mem_map.mp hj
    obtain ⟨h0, h1⟩ := h i hi
    rw [← hji]
    unfold quickScoreItem
    constructor
    · exact scoreBump_nonneg (scoreBump_nonneg h0 _) _
    · exact scoreBump_le_one (scoreBump_le_one h1 _) _
  · intro i t' hle himp
    unfold quickScoreItem
    simp only
    set tokens := searchTokens search_term with htok
    have hterm : termMatches tokens i ≤ termMatches tokens { i with title := t' } := by
      unfold termMatches
      apply List.countP_mono_left
      intro tok hmem hp
      simp only [Bool.or_eq_true] at hp ⊢
      rcases hp with hp | hp
      · exact Or.inl (himp tok hmem hp)
      · exact Or.inr hp
    have htitle : titleMatches tokens i ≤ titleMatches tokens { i with title := t' } := by
      unfold titleMatches
      apply List.countP_mono_left
      intro tok hmem hp
      exact himp tok hmem hp
    have hinner : scoreBump i.match_score (termMatches tokens i) ≤
        scoreBump i.match_score (termMatches tokens { i with title := t' }) :=
      scoreBump_mono hle le_rfl hterm
    exact scoreBump_mono (scoreBump_le_one hle _) hinner htitle

/-- An item with an out-of-range score, on which the literal claim fails. -/
def badItem : Item :=
  { id := "b", title := "x", author := "z", summary := "y", match_score := 5 }

/-- C5 counterexample: `_quick_semantic_scoring` neither keeps scores in
`[0, 1]` (an unmatched item keeps its incoming score `5`) nor is monotonic
without a precondition (adding the matching token `"zzz"` to the title drops
the score from `5` to `1`). -/
theorem quick_semantic_scoring_cex :
    ((quick_semantic_scoring [badItem] "zzz").map Item.match_score = [5])
    ∧ ((quick_semantic_scoring [{ badItem with title := "x zzz" }] "zzz").map
        Item.match_score = [1])
    ∧ ((1 : ℚ) < 5) := by
  have h1 : searchTokens "zzz" = ["zzz"] := by decide
  have h2 : isSubstring "zzz" (pyLower "x") = false := by decide
  have h3 : isSubstring "zzz" (pyLower "y") = false := by decide
  have h4 : isSubstring "zzz" (pyLower "x zzz") = true := by decide
  refine ⟨?_, ?_, by norm_num⟩
  · simp [quick_semantic_scoring, quickScoreItem, termMatches, titleMatches,
      scoreBump, badItem, h1, h2, h3]
  · simp [quick_semantic_scoring, quickScoreItem, termMatches, titleMatches,
      scoreBump, badItem, h1, h3, h4, min_def]
    norm_num

/-- In-range item for the C5 witness. -/
def monoItem : Item :=
  { id := "m", title := "x", author := "z", summary := "y", match_score := 1/2 }

/-- Witness for the amended C5 at concrete input: the output score of an
in-range item is in `[0, 1]`, and growing its title's matched-token set
does not decrease the score. -/
theorem quick_semantic_scoring_amended_witness :
    (0 ≤ (quickScoreItem (searchTokens "zzz") monoItem).match_score
      ∧ (quickScoreItem (searchTokens "zzz") monoItem).match_score ≤ 1)
    ∧ ((quickScoreItem (searchTokens "zzz") monoItem).match_score ≤
        (quickScoreItem (searchTokens "zzz")
          { monoItem with title := "x zzz" }).match_score) := by
  have h := quick_semantic_scoring_amended "zzz"
  constructor
  · apply h.1 [monoItem]
    · intro i hi
      simp only [List.mem_singleton] at hi
      subst hi
      norm_num [monoItem]
    · simp [quick_semantic_scoring]
  · apply h.2 monoItem "x zzz"
    · norm_num [monoItem]
    · decide

/-- Circuit-breaker states (`recommendation_service.py:11-14`). -/
inductive CircuitState
  | CLOSED
  | OPEN
  | HALF_OPEN
deriving DecidableEq, Repr

/-- Breaker configuration (`CircuitBreaker.__init__`,
`recommendation_service.py:22-47`).  Seconds are modelled as `ℚ`.  The
fallback value is abstract; every breaker built by `RecommendationService`
(`recommendation_service.py:244-266`) supplies a `fallback_function`, so it
is modelled as always present (without it the code raises instead). -/
structure CBConfig (α : Type) where
  failure_threshold : Nat := 5
  recovery_timeout : ℚ := 30
  fallback : α

/-- Mutable breaker state (`recommendation_service.py:41-46`). -/
structure CBState where
  state : CircuitState := CircuitState.CLOSED
  failure_count : Nat := 0
  last_failure_time : Option ℚ := none
deriving DecidableEq, Repr

/-- What the protected provider coroutine would do if awaited: produce a
value, or fail (a raised exception, or an `asyncio.TimeoutError` from
`wait_for`; `call` handles both identically). -/
inductive CallOutcome (α : Type)
  | success (v : α)
  | failure

/-- The `if self.state == CircuitState.OPEN` entry check of
`CircuitBreaker.call` (`recommendation_service.py:61-70`): either the
underlying call proceeds (possibly after OPEN → HALF_OPEN), or the call
short-circuits to the fallback.  `now` is `datetime.now()`; the code
compares `now - last_failure_time > timedelta(seconds=recovery_timeout)`. -/
def cbEntry {α : Type} (cfg : CBConfig α) (s : CBState) (now : ℚ) :
    CBState ⊕ α :=
  if s.state = CircuitState.OPEN then
    match s.last_failure_time with
    | some t =>
        if cfg.recovery_timeout < now - t then
          Sum.inl { s with state := CircuitState.HALF_OPEN }
        else Sum.inr cfg.fallback
    | none => Sum.inr cfg.fallback
  else Sum.inl s

/-- `CircuitBreaker._handle_failure` (`recommendation_service.py:94-113`):
increment the count, stamp the time, open from CLOSED once the threshold is
reached, reopen from HALF_OPEN always. -/
def cbHandleFailure {α : Type} (cfg : CBConfig α) (s : CBState) (now : ℚ) :
    CBState :=
  let s1 : CBState := { s with failure_count := s.failure_count + 1,
                               last_failure_time := some now }
  let s2 : CBState :=
    if s1.state = CircuitState.CLOSED ∧
        cfg.failure_threshold ≤ s1.failure_count then
      { s1 with state := CircuitState.OPEN }
    else s1
  if s2.state = CircuitState.HALF_OPEN then
    { s2 with state := CircuitState.OPEN }
  else s2

/-- `CircuitBreaker.reset` (`recommendation_service.py:115-119`). -/
def cbReset (s : CBState) : CBState :=
  { s with state := CircuitState.CLOSED, failure_count := 0,
           last_failure_time := none }

/-- One full `CircuitBreaker.call` (`recommendation_service.py:50-92`):
returns the new state, whether the provider function was actually awaited,
and the value handed back to the caller. -/
def cbCall {α : Type} (cfg : CBConfig α) (s : CBState) (now : ℚ)
    (outcome : CallOutcome α) : CBState × Bool × α :=
  match cbEntry cfg s now with
  | Sum.inr fb => (s, false, fb)
  | Sum.inl s' =>
      match outcome with
      | CallOutcome.success v =>
          (if s'.state = CircuitState.HALF_OPEN then cbReset s' else s',
           true, v)
      | CallOutcome.failure => (cbHandleFailure cfg s' now, true, cfg.fallback)

/-- A sequence of `call`s, threading the breaker state
(the breaker lives for the process lifetime). -/
def cbRun {α : Type} (cfg : CBConfig α) (s : CBState) :
    List (ℚ × CallOutcome α) → CBState
  | [] => s
  | (now, o) :: rest => cbRun cfg (cbCall cfg s now o).1 rest

theorem cbHandleFailure_closed {α : Type} (cfg : CBConfig α) (s : CBState)
    (now : ℚ) (hcl : s.state = CircuitState.CLOSED) :
    cbHandleFailure cfg s now =
      if cfg.failure_threshold ≤ s.failure_count + 1 then
        { s with state := CircuitState.OPEN,
                 failure_count := s.failure_count + 1,
                 last_failure_time := some now }
      else { s with failure_count := s.failure_count + 1,
                    last_failure_time := some now } := by
  unfold cbHandleFailure
  by_cases hth : cfg.failure_threshold ≤ s.failure_count + 1
  · simp [hcl, hth]
  · simp [hcl, hth]

theorem cbHandleFailure_half_open {α : Type} (cfg : CBConfig α) (s : CBState)
    (now : ℚ) (hho : s.state = CircuitState.HALF_OPEN) :
    cbHandleFailure cfg s now =
      { s with state := CircuitState.OPEN,
               failure_count := s.failure_count + 1,
               last_failure_time := some now } := by
  unfold cbHandleFailure
  simp [hho]

theorem cbEntry_not_open {α : Type} (cfg : CBConfig α) (s : CBState) (now : ℚ)
    (h : s.state ≠ CircuitState.OPEN) : cbEntry cfg s now = Sum.inl s := by
  unfold cbEntry
  rw [if_neg h]

/-- C6: the three state-machine invariants hold for every single `call`
(hence along every sequence of calls): CLOSED goes to OPEN only with the
post-increment failure count at or above the threshold; an OPEN breaker
lets a call through (entering HALF_OPEN) only when the recovery timeout
has elapsed since the recorded last failure; from HALF_OPEN a success
resets to CLOSED and a failure reopens. -/
theorem circuit_breaker_invariants {α : Type} (cfg : CBConfig α) (s : CBState)
    (now : ℚ) (outcome : CallOutcome α) :
    (s.state = CircuitState.CLOSED →
      (cbCall cfg s now outcome).1.state = CircuitState.OPEN →
      cfg.failure_threshold ≤ (cbCall cfg s now outcome).1.failure_count)
    ∧ (s.state = CircuitState.OPEN → ∀ s', cbEntry cfg s now = Sum.inl s' →
        s'.state = CircuitState.HALF_OPEN ∧
        ∃ t, s.last_failure_time = some t ∧ cfg.recovery_timeout < now - t)
    ∧ (∀ v : α, s.state = CircuitState.HALF_OPEN →
        (cbCall cfg s now (CallOutcome.success v)).1.state = CircuitState.CLOSED)
    ∧ (s.state = CircuitState.HALF_OPEN →
        (cbCall cfg s now CallOutcome.failure).1.state = CircuitState.OPEN) := by
  have hclne : CircuitState.CLOSED ≠ CircuitState.OPEN := by
    intro h
    exact CircuitState.noConfusion h
  have hhone : CircuitState.HALF_OPEN ≠ CircuitState.OPEN := by
    intro h
    exact CircuitState.noConfusion h
  refine ⟨?_, ?_, ?_, ?_⟩
  · intro hcl
    have hentry : cbEntry cfg s now = Sum.inl s :=
      cbEntry_not_open cfg s now (by rw [hcl]; exact hclne)
    cases outcome with
    | success v =>
        simp only [cbCall, hentry]
        rw [if_neg (by rw [hcl]; intro h; exact CircuitState.noConfusion h)]
        intro habs
        rw [hcl] at habs
        exact absurd habs hclne
    | failure =>
        simp only [cbCall, hentry]
        rw [cbHandleFailure_closed cfg s now hcl]
        by_cases hth : cfg.failure_threshold ≤ s.failure_count + 1
        · rw [if_pos hth]
          intro _
          simpa using hth
        · rw [if_neg hth]
          intro habs
          simp only at habs
          rw [hcl] at habs
          exact absurd habs hclne
  · intro hop s' hentry
    unfold cbEntry at hentry
    rw [if_pos hop] at hentry
    rcases hlf : s.last_failure_time with _ | t
    · rw [hlf] at hentry
      have habs : (Sum.inr cfg.fallback : CBState ⊕ α) = Sum.inl s' := hentry
      exact Sum.noConfusion habs
    · rw [hlf] at hentry
      have hentry2 : (if cfg.recovery_timeout < now - t then
          (Sum.inl { s with state := CircuitState.HALF_OPEN,
                            last_failure_time := some t } : CBState ⊕ α)
          else Sum.inr cfg.fallback) = Sum.inl s' := hentry
      by_cases hrt : cfg.recovery_timeout < now - t
      · rw [if_pos hrt] at hentry2
        have heq := Sum.inl.inj hentry2
        rw [← heq]
        exact ⟨rfl, t, rfl, hrt⟩
      · rw [if_neg hrt] at hentry2
        exact Sum.noConfusion hentry2
  · intro v hho
    have hentry : cbEntry cfg s now = Sum.inl s :=
      cbEntry_not_open cfg s now (by rw [hho]; exact hhone)
    simp [cbCall, hentry, hho, cbReset]
  · intro hho
    have hentry : cbEntry cfg s now = Sum.inl s :=
      cbEntry_not_open cfg s now (by rw [hho]; exact hhone)
    simp [cbCall, hentry, cbHandleFailure_half_open cfg s now hho]

/-- Concrete breaker config for witnesses (`failure_threshold=3`,
`recovery_timeout=60`, as built in `RecommendationService.__init__`). -/
def cbWitCfg : CBConfig Nat :=
  { failure_threshold := 3, recovery_timeout := 60, fallback := 99 }

/-- A HALF_OPEN breaker state for the C6 witness. -/
def cbWitHalf : CBState :=
  { state := CircuitState.HALF_OPEN, failure_count := 2,
    last_failure_time := some 0 }

/-- Witness for C6 at concrete input: from HALF_OPEN a success closes the
breaker and a failure reopens it. -/
theorem circuit_breaker_invariants_witness :
    (cbCall cbWitCfg cbWitHalf 100 (CallOutcome.success 7)).1.state
        = CircuitState.CLOSED
    ∧ (cbCall cbWitCfg cbWitHalf 100 CallOutcome.failure).1.state
        = CircuitState.OPEN := by
  have h := circuit_breaker_invariants cbWitCfg cbWitHalf 100
    (CallOutcome.success 7)
  have h2 := circuit_breaker_invariants cbWitCfg cbWitHalf 100
    CallOutcome.failure
  exact ⟨h.2.2.1 7 rfl, h2.2.2.2 rfl⟩

/-- A freshly constructed breaker (`CircuitBreaker.__init__`,
`recommendation_service.py:40-46`). -/
def cbFresh : CBState :=
  { state := CircuitState.CLOSED, failure_count := 0,
    last_failure_time := none }

theorem cbRun_append {α : Type} (cfg : CBConfig α)
    (l₁ l₂ : List (ℚ × CallOutcome α)) :
    ∀ s, cbRun cfg s (l₁ ++ l₂) = cbRun cfg (cbRun cfg s l₁) l₂ := by
  induction l₁ with
  | nil =>
      intro s
      rfl
  | cons p rest ih =>
      intro s
      obtain ⟨now, o⟩ := p
      rw [List.cons_append, cbRun, cbRun, ih]

theorem cbRun_failures_below {α : Type} (cfg : CBConfig α) (ts : List ℚ) :
    ∀ s : CBState, s.state = CircuitState.CLOSED →
      s.failure_count + ts.length < cfg.failure_threshold →
      (cbRun cfg s (ts.map (fun t => (t, CallOutcome.failure)))).state
          = CircuitState.CLOSED
      ∧ (cbRun cfg s (ts.map (fun t => (t, CallOutcome.failure)))).failure_count
          = s.failure_count + ts.length := by
  induction ts with
  | nil =>
      intro s hcl _
      exact ⟨hcl, by simp [cbRun]⟩
  | cons t rest ih =>
      intro s hcl hlt
      simp only [List.map_cons, cbRun]
      have hentry : cbEntry cfg s t = Sum.inl s :=
        cbEntry_not_open cfg s t
          (by rw [hcl]; exact fun h => CircuitState.noConfusion h)
      have hstep : (cbCall cfg s t CallOutcome.failure).1 =
          { s with failure_count := s.failure_count + 1,
                   last_failure_time := some t } := by
        simp only [cbCall, hentry]
        rw [cbHandleFailure_closed cfg s t hcl]
        rw [if_neg (by simp only [List.length_cons] at hlt; omega)]
      rw [hstep]
      have hrec := ih { s with failure_count := s.failure_count + 1,
                               last_failure_time := some t }
        (by simpa using hcl)
        (by simp only [List.length_cons] at hlt; simp; omega)
      refine ⟨hrec.1, ?_⟩
      rw [hrec.2]
      simp
      omega

theorem cbEntry_open_not_elapsed {α : Type} (cfg : CBConfig α) (s : CBState)
    (now t : ℚ) (hop : s.state = CircuitState.OPEN)
    (hlf : s.last_failure_time = some t)
    (hne : ¬ cfg.recovery_timeout < now - t) :
    cbEntry cfg s now = Sum.inr cfg.fallback := by
  unfold cbEntry
  rw [if_pos hop, hlf]
  have hred : (if cfg.recovery_timeout < now - t then
      (Sum.inl { s with state := CircuitState.HALF_OPEN,
                        last_failure_time := some t } : CBState ⊕ α)
      else Sum.inr cfg.fallback)
      = Sum.inr cfg.fallback := if_neg hne
  exact hred

/-- C7: after `failure_threshold` consecutive failures from a fresh breaker
the state is OPEN; the next call made before `recovery_timeout` has elapsed
since the last failure returns the fallback, does not invoke the protected
provider function (the invoked flag is `false`), and leaves the breaker
state unchanged. -/
theorem circuit_breaker_open_skips_provider {α : Type} (cfg : CBConfig α)
    (ts : List ℚ) (tl t4 : ℚ) (outcome : CallOutcome α)
    (hlen : ts.length + 1 = cfg.failure_threshold)
    (hel : t4 - tl ≤ cfg.recovery_timeout) :
    (cbRun cfg cbFresh
        ((ts ++ [tl]).map (fun t => (t, CallOutcome.failure)))).state
        = CircuitState.OPEN
    ∧ cbCall cfg
        (cbRun cfg cbFresh ((ts ++ [tl]).map (fun t => (t, CallOutcome.failure))))
        t4 outcome
      = (cbRun cfg cbFresh ((ts ++ [tl]).map (fun t => (t, CallOutcome.failure))),
         false, cfg.fallback) := by
  have hmap : (ts ++ [tl]).map (fun t => (t, CallOutcome.failure (α := α)))
      = ts.map (fun t => (t, CallOutcome.failure)) ++ [(tl, CallOutcome.failure)] := by
    simp
  rw [hmap, cbRun_append]
  obtain ⟨hcl, hcnt⟩ := cbRun_failures_below cfg ts cbFresh rfl
    (by simp [cbFresh]; omega)
  have hentry : cbEntry cfg
      (cbRun cfg cbFresh (ts.map (fun t => (t, CallOutcome.failure)))) tl
      = Sum.inl (cbRun cfg cbFresh (ts.map (fun t => (t, CallOutcome.failure)))) :=
    cbEntry_not_open cfg _ tl
      (by rw [hcl]; exact fun h => CircuitState.noConfusion h)
  have hstep : cbRun cfg
      (cbRun cfg cbFresh (ts.map (fun t => (t, CallOutcome.failure))))
      [(tl, CallOutcome.failure)]
      = (cbCall cfg
          (cbRun cfg cbFresh (ts.map (fun t => (t, CallOutcome.failure))))
          tl CallOutcome.failure).1 := by
    rw [cbRun, cbRun]
  have hs2 : (cbCall cfg
      (cbRun cfg cbFresh (ts.map (fun t => (t, CallOutcome.failure))))
      tl CallOutcome.failure).1 =
      { cbRun cfg cbFresh (ts.map (fun t => (t, CallOutcome.failure))) with
        state := CircuitState.OPEN,
        failure_count :=
          (cbRun cfg cbFresh (ts.map (fun t => (t, CallOutcome.failure)))).failure_count + 1,
        last_failure_time := some tl } := by
    simp only [cbCall, hentry]
    rw [cbHandleFailure_closed cfg _ tl hcl]
    rw [if_pos (by rw [hcnt]; simp only [cbFresh]; omega)]
  rw [hstep, hs2]
  constructor
  · rfl
  · have hent4 : cbEntry cfg
        { cbRun cfg cbFresh (ts.map (fun t => (t, CallOutcome.failure))) with
          state := CircuitState.OPEN,
          failure_count :=
            (cbRun cfg cbFresh (ts.map (fun t => (t, CallOutcome.failure)))).failure_count + 1,
          last_failure_time := some tl } t4
        = Sum.inr cfg.fallback :=
      cbEntry_open_not_elapsed cfg _ t4 tl rfl rfl (not_lt.mpr hel)
    simp only [cbCall, hent4]

/-- Witness for C7: `failure_threshold=3` and `recovery_timeout=60` (the
`RecommendationService` breaker config); failures at times 1, 2, 3 and a
fourth call at time 4: the breaker is OPEN and the fourth call returns the
fallback `99` without invoking the provider. -/
theorem circuit_breaker_open_skips_provider_witness :
    (cbRun cbWitCfg cbFresh
        (([1, 2] ++ [3]).map (fun t => (t, CallOutcome.failure)))).state
        = CircuitState.OPEN
    ∧ cbCall cbWitCfg
        (cbRun cbWitCfg cbFresh
          (([1, 2] ++ [3]).map (fun t => (t, CallOutcome.failure))))
        4 (CallOutcome.success 7)
      = (cbRun cbWitCfg cbFresh
          (([1, 2] ++ [3]).map (fun t => (t, CallOutcome.failure))),
         false, 99) :=
  circuit_breaker_open_skips_provider cbWitCfg [1, 2] 3 4
    (CallOutcome.success 7) (by simp [cbWitCfg]) (by norm_num [cbWitCfg])

/-- `dict[key] = v`: replace in place when the key is present, append
otherwise. -/
def aset {K V : Type} [DecidableEq K] (k : K) (v : V) (l : List (K × V)) :
    List (K × V) :=
  match alookup k l with
  | some _ => areplace k v l
  | none => l ++ [(k, v)]

/-- `del dict[key]`. -/
def adelete {K V : Type} [DecidableEq K] (k : K) :
    List (K × V) → List (K × V)
  | [] => []
  | (k', v) :: rest => if k' = k then rest else (k', v) :: adelete k rest

/-- An insights dict (`_get_basic_insights` / `_get_advanced_insights`
payloads), modelled as an association list. -/
abbrev InsightsDict := List (String × String)

/-- `{**existing, **advanced}` (`recommendation_engine.py:343`): right-hand
keys override. -/
def dictMerge (existing advanced : InsightsDict) : InsightsDict :=
  advanced.foldl (fun acc p => aset p.1 p.2 acc) existing

/-- The metadata dict of an engine response (the keys the claims touch):
`error`, `tier`, the `timeout` flag set by the enhancement stages on
`asyncio.TimeoutError`, `search_term` and `duplicates_removed`. -/
structure Metadata where
  error : Option String := none
  tier : Option String := none
  timeout : Bool := false
  search_term : String := ""
  duplicates_removed : Nat := 0
deriving DecidableEq, Repr

/-- The response dict built by `RecommendationEngine`
(`recommendation_engine.py:118-129` and `194-205`). -/
structure RecResponse where
  top_book : Option Item := none
  top_review : Option Item := none
  top_social : Option Item := none
  recommendations : List Item := []
  reviews : List Item := []
  social : List Item := []
  insights : Option InsightsDict := none
  literary_analysis : Option String := none
  metadata : Metadata := {}
deriving DecidableEq, Repr

/-- Python exceptions that can escape the try body of
`get_recommendations`. -/
inductive PyErr
  | typeError (msg : String)
  | nameError (msg : String)
deriving DecidableEq, Repr

/-- `str(e)` for the except clause. -/
def pyErrMsg : PyErr → String
  | PyErr.typeError m => m
  | PyErr.nameError m => m

/-- `timeouts = {"fast": 5.0, "standard": 15.0, "comprehensive": 40.0}.get(tier, 15.0)`
(`recommendation_engine.py:62-66`): because of the `.get`, `timeouts` is a
single float, not the dict. -/
def tierTimeouts (tier : String) : ℚ :=
  if tier = "fast" then 5
  else if tier = "standard" then 15
  else if tier = "comprehensive" then 40
  else 15

/-- Subscripting the float `timeouts` — `timeouts["standard"]` at
`recommendation_engine.py:88` and `timeouts["comprehensive"]` at
`recommendation_engine.py:105` — raises
`TypeError: 'float' object is not subscriptable`. -/
def floatSubscript (_x : ℚ) (_key : String) : Except PyErr ℚ :=
  Except.error (PyErr.typeError "float object is not subscriptable")

/-- Outcome of the joined standard-stage gather
(`recommendation_engine.py:246-253`): `asyncio.wait_for` either times out or
both tasks complete.  `_get_reviews_and_social` and `_get_basic_insights`
catch all their exceptions internally and always return values, so the
gathered results are never exceptions. -/
inductive StdGather
  | timeout
  | completed (review_items social_items : List Item) (insights : InsightsDict)

/-- Outcome of the joined comprehensive-stage gather
(`recommendation_engine.py:321-329`); the three sub-tasks absorb their own
failures (falling back to mock data internally), so the join either times
out or completes with the literary analysis, the advanced insights and the
cross-validated list (which is kept only when non-empty, i.e. truthy). -/
inductive CompGather
  | timeout
  | completed (analysis : String) (advanced : InsightsDict)
      (validated : List Item)

/-- `_enhance_with_standard_features` (`recommendation_engine.py:222-295`):
copy the FAST results, set `metadata["tier"] = "standard"`, then on
completion store the score-sorted top review/social picks, the top-3 lists
and the insights; on `asyncio.TimeoutError` set `metadata["timeout"] = True`
and return the FAST-derived partial result unchanged otherwise.  The
function never raises: every branch returns a response. -/
def enhance_with_standard_features (basic_results : RecResponse)
    (g : StdGather) : RecResponse :=
  let standard_results :=
    { basic_results with metadata :=
        { basic_results.metadata with tier := some "standard" } }
  match g with
  | StdGather.timeout =>
      { standard_results with metadata :=
          { standard_results.metadata with timeout := true } }
  | StdGather.completed review_items social_items insights =>
      let sorted_reviews := sortedByScoreDesc review_items
      let sorted_social := sortedByScoreDesc social_items
      { standard_results with
        top_review := sorted_reviews.head?,
        top_social := sorted_social.head?,
        reviews := sorted_reviews.take 3,
        social := sorted_social.take 3,
        insights := some insights }

/-- `_enhance_with_comprehensive_features`
(`recommendation_engine.py:297-371`): copy the standard results, set
`metadata["tier"] = "comprehensive"`; on timeout annotate
`metadata["timeout"] = True`; on completion store the analysis, merge the
insights dicts, and replace `recommendations` by the cross-validated list
when it is truthy (non-empty). -/
def enhance_with_comprehensive_features (standard_results : RecResponse)
    (g : CompGather) : RecResponse :=
  let comprehensive_results :=
    { standard_results with metadata :=
        { standard_results.metadata with tier := some "comprehensive" } }
  match g with
  | CompGather.timeout =>
      { comprehensive_results with metadata :=
          { comprehensive_results.metadata with timeout := true } }
  | CompGather.completed analysis advanced validated =>
      let r1 := { comprehensive_results with
                  literary_analysis := some analysis }
      let r2 := { r1 with insights :=
                  (some (dictMerge (r1.insights.getD []) advanced)) }
      if validated.isEmpty then r2
      else { r2 with recommendations := validated }

/-- One `get_recommendations` call's ambient context: the `progressive`
argument and whether the router attached a `progressive_handler` to the
task (`recommendations.py:189-191`; `recommendation_engine.py:69`). -/
structure EngineCtx where
  progressive : Bool
  handlerAttached : Bool
deriving DecidableEq, Repr

/-- The outcomes of the awaited sub-computations, as oracles:
`_get_basic_recommendations` catches everything internally and always
returns a response (`recommendation_engine.py:137-220`), and each
enhancement stage's joined gather either times out or completes. -/
structure EngineOracle where
  basic : RecResponse
  stdGather : StdGather
  compGather : CompGather

/-- One progressive event: the payload handed to `progressive_handler` and
its `final` flag. -/
abbrev EngineEvent := RecResponse × Bool

/-- The try body of `RecommendationEngine.get_recommendations`
(`recommendation_engine.py:60-113`): the events emitted so far, paired with
either the returned response or the exception escaping the body.  A fast
request returns the basic results before any emit; any other tier first
emits the basic results (when progressive with a handler), then
`standard`/`comprehensive` tiers raise `TypeError` subscripting the float
`timeouts` before `_enhance_with_standard_features` can be called, and any
other tier falls through to `return standard_results`
(`recommendation_engine.py:113`) where `standard_results` is unbound — a
`NameError`. -/
def engineBody (ctx : EngineCtx) (tier : String) (o : EngineOracle) :
    List EngineEvent × Except PyErr RecResponse :=
  if tier = "fast" then ([], Except.ok o.basic)
  else
    let evs1 : List EngineEvent :=
      if ctx.progressive && ctx.handlerAttached then [(o.basic, false)] else []
    if tier = "standard" ∨ tier = "comprehensive" then
      match floatSubscript (tierTimeouts tier) "standard" with
      | Except.error e => (evs1, Except.error e)
      | Except.ok _std_timeout =>
          let standard_results :=
            enhance_with_standard_features o.basic o.stdGather
          if tier = "standard" then (evs1, Except.ok standard_results)
          else
            let evs2 := evs1 ++
              (if ctx.progressive && ctx.handlerAttached then
                [(standard_results, false)] else [])
            match floatSubscript (tierTimeouts tier) "comprehensive" with
            | Except.error e => (evs2, Except.error e)
            | Except.ok _comp_timeout =>
                (evs2, Except.ok
                  (enhance_with_comprehensive_features standard_results
                    o.compGather))
    else
      (evs1, Except.error
        (PyErr.nameError "name standard_results is not defined"))

/-- The `error_response` built by the except clause
(`recommendation_engine.py:115-129`). -/
def error_response (search_term : String) (e : PyErr) : RecResponse :=
  { top_book := none, top_review := none, top_social := none,
    recommendations := [],
    metadata := { error := some (pyErrMsg e), search_term := search_term } }

/-- `RecommendationEngine.get_recommendations`
(`recommendation_engine.py:31-135`): run the try body; on an exception
return `error_response`, emitting it as a `final=True` progressive event
when progressive with an attached handler
(`recommendation_engine.py:131-135`).  Returns the response and the
complete list of events emitted to the progressive handler. -/
def engine_get_recommendations (ctx : EngineCtx) (search_term tier : String)
    (o : EngineOracle) : RecResponse × List EngineEvent :=
  match engineBody ctx tier o with
  | (evs, Except.ok r) => (r, evs)
  | (evs, Except.error e) =>
      let er := error_response search_term e
      (er, evs ++
        (if ctx.progressive && ctx.handlerAttached then [(er, true)] else []))

/-- A concrete oracle whose FAST stage produced one real recommendation. -/
def demoOracle : EngineOracle :=
  { basic := { top_book := some witItemA, recommendations := [witItemA],
               metadata := { tier := some "fast", search_term := "dune" } },
    stdGather := StdGather.timeout,
    compGather := CompGather.timeout }

/-- C1 (code bug), evaluated at the failing inputs: a progressive fast-tier
request emits no events at all, so the stream never receives a `final=True`
terminal event (the router's queue loop never terminates); and in a
progressive comprehensive-tier request the one terminal event is the
generic error response whose `recommendations` are empty — the existing
FAST partial data is discarded rather than carried in the terminal event. -/
theorem progressive_stream_bug :
    ((engine_get_recommendations ⟨true, true⟩ "dune" "fast" demoOracle).2 = [])
    ∧ ((engine_get_recommendations ⟨true, true⟩ "dune" "comprehensive"
        demoOracle).2.map Prod.snd = [false, true])
    ∧ ((engine_get_recommendations ⟨true, true⟩ "dune" "comprehensive"
        demoOracle).2.getLast?.map (fun ev => ev.1.recommendations) = some [])
    ∧ demoOracle.basic.recommendations ≠ [] := by
  refine ⟨rfl, rfl, rfl, ?_⟩
  simp [demoOracle]

/-- C2 (code bug), evaluated at the failing input: the standard-stage
function itself does return the FAST-derived partial annotated
`metadata["timeout"] = True` when its gather times out — but a
comprehensive-tier request never reaches it: the pipeline raises
`TypeError` subscripting the float `timeouts` first and returns the generic
error response, with no timeout annotation and empty recommendations; and
no code in `get_recommendations` consults the timeout flag before
escalating. -/
theorem standard_timeout_bug :
    ((enhance_with_standard_features demoOracle.basic
        StdGather.timeout).metadata.timeout = true)
    ∧ ((enhance_with_standard_features demoOracle.basic
        StdGather.timeout).recommendations = demoOracle.basic.recommendations)
    ∧ ((engine_get_recommendations ⟨false, false⟩ "dune" "comprehensive"
        demoOracle).1.metadata.error
        = some "float object is not subscriptable")
    ∧ ((engine_get_recommendations ⟨false, false⟩ "dune" "comprehensive"
        demoOracle).1.metadata.timeout = false)
    ∧ ((engine_get_recommendations ⟨false, false⟩ "dune" "comprehensive"
        demoOracle).1.recommendations = []) :=
  ⟨rfl, rfl, rfl, rfl, rfl⟩

/-- C8: `get_recommendations` is a total function of its inputs — it always
hands its caller a response object: when the try body completes, that
result; when the body raises, the `error_response` with empty
`recommendations` and `metadata.error` set to the exception message. -/
theorem engine_get_recommendations_total (ctx : EngineCtx)
    (search_term tier : String) (o : EngineOracle) :
    (∀ r, (engineBody ctx tier o).2 = Except.ok r →
      (engine_get_recommendations ctx search_term tier o).1 = r)
    ∧ (∀ e, (engineBody ctx tier o).2 = Except.error e →
      (engine_get_recommendations ctx search_term tier o).1.recommendations = []
      ∧ (engine_get_recommendations ctx search_term tier o).1.metadata.error
          = some (pyErrMsg e)) := by
  constructor
  · intro r hr
    unfold engine_get_recommendations
    rcases hb : engineBody ctx tier o with ⟨evs, res⟩
    rw [hb] at hr
    simp only at hr
    rw [hr]
  · intro e he
    unfold engine_get_recommendations
    rcases hb : engineBody ctx tier o with ⟨evs, res⟩
    rw [hb] at he
    simp only at he
    rw [he]
    exact ⟨rfl, rfl⟩

/-- Witness for C8 at a concrete input: a standard-tier request, whose body
raises the float-subscript `TypeError`, still yields a response with empty
recommendations and the error recorded. -/
theorem engine_get_recommendations_total_witness :
    (engine_get_recommendations ⟨false, false⟩ "dune" "standard"
        demoOracle).1.recommendations = []
    ∧ (engine_get_recommendations ⟨false, false⟩ "dune" "standard"
        demoOracle).1.metadata.error
        = some (pyErrMsg (PyErr.typeError "float object is not subscriptable")) :=
  (engine_get_recommendations_total ⟨false, false⟩ "dune" "standard"
      demoOracle).2
    (PyErr.typeError "float object is not subscriptable") rfl

/-- A write into the decorator cache of `cache.py` (`set_in_cache`,
`cache.py:114-132`): the key's name prefix-part and the stored value.  Full
keys are `generate_cache_key(name, *args, **kwargs)` and embed every call
argument, including the `progressive` flag. -/
structure CacheWrite where
  cacheName : String
  value : RecResponse
deriving DecidableEq, Repr

/-- The decorator-cache writes of one cold-cache engine call (all lookups
miss):  `@cached("recommendations_basic", ttl=3600)` stores the FAST-tier
intermediate result of `_get_basic_recommendations`
(`recommendation_engine.py:137`), and `@cached("recommendation_engine")`
stores the final returned object (`recommendation_engine.py:30`) — for
every request; the `cached` wrapper (`cache.py:155-176`) never consults the
`progressive` flag. -/
def engineCacheWrites (ctx : EngineCtx) (search_term tier : String)
    (o : EngineOracle) : List CacheWrite :=
  [ { cacheName := "recommendations_basic", value := o.basic },
    { cacheName := "recommendation_engine",
      value := (engine_get_recommendations ctx search_term tier o).1 } ]

/-- The service-level `RecommendationCache` writes of one cold-cache
`RecommendationService.get_recommendations` call
(`recommendation_service.py:296-315`): the engine result is stored only
under `if result and not progressive`; the result dict is never empty
(hence always truthy), so exactly the non-progressive results are stored. -/
def serviceCacheWrites (progressive : Bool) (result : RecResponse) :
    List RecResponse :=
  if progressive then [] else [result]

/-- C9 counterexample: a progressive comprehensive-tier request on cold
caches still writes two entries through the `cached` decorators — the
FAST-tier intermediate result and the final result. -/
theorem progressive_cached_cex :
    engineCacheWrites ⟨true, true⟩ "dune" "comprehensive" demoOracle ≠ []
    ∧ (engineCacheWrites ⟨true, true⟩ "dune" "comprehensive"
        demoOracle).map CacheWrite.cacheName
        = ["recommendations_basic", "recommendation_engine"] := by
  refine ⟨?_, rfl⟩
  simp [engineCacheWrites]

/-- C9 (amended): a progressive request writes nothing to the service-level
`RecommendationCache` (the spec's ResponseCache), but the engine-level
`cached` decorators store both the FAST-tier intermediate result and the
final result of every request, progressive included. -/
theorem progressive_cache_amended (ctx : EngineCtx)
    (search_term tier : String) (o : EngineOracle)
    (hprog : ctx.progressive = true) :
    serviceCacheWrites ctx.progressive
        (engine_get_recommendations ctx search_term tier o).1 = []
    ∧ (engineCacheWrites ctx search_term tier o).map CacheWrite.cacheName
        = ["recommendations_basic", "recommendation_engine"] := by
  constructor
  · rw [hprog]
    rfl
  · rfl

/-- Witness for the amended C9 at a concrete progressive request. -/
theorem progressive_cache_amended_witness :
    serviceCacheWrites true
        (engine_get_recommendations ⟨true, true⟩ "dune" "comprehensive"
          demoOracle).1 = [] :=
  (progressive_cache_amended ⟨true, true⟩ "dune" "comprehensive" demoOracle
    rfl).1

theorem alookup_aset_self {K V : Type} [DecidableEq K] (k : K) (v : V)
    (l : List (K × V)) : alookup k (aset k v l) = some v := by
  unfold aset
  rcases hl : alookup k l with _ | v₀
  · rw [alookup_append, hl]
    simp [alookup]
  · exact alookup_areplace_self hl

theorem alookup_adelete_self {K V : Type} [DecidableEq K] {k : K}
    {l : List (K × V)} (hnd : (l.map Prod.fst).Nodup) :
    alookup k (adelete k l) = none := by
  induction l with
  | nil => rfl
  | cons p rest ih =>
      obtain ⟨k', v⟩ := p
      simp only [List.map_cons, List.nodup_cons] at hnd
      by_cases hk : k' = k
      · rw [adelete, if_pos hk]
        apply alookup_eq_none_of_not_mem_keys
        rw [← hk]
        exact hnd.1
      · rw [adelete, if_neg hk]
        rw [alookup, if_neg hk]
        exact ih hnd.2

/-- An entry of `RecommendationCache` (`recommendation_service.py:196-199`):
the stored payload and its expiration instant. -/
structure RecCacheEntry (V : Type) where
  data : V
  expiration : ℚ

/-- `RecommendationCache` (`recommendation_service.py:122-221`): a dict from
keys to entries plus the configured TTL (default 3600 s).  The key type `K`
abstracts the md5 hex digest of
`json.dumps([user_id, search_term.lower(), tier])`; since `json.dumps` is
injective on lists of three strings, `_generate_key` is an abstract digest
function applied to the triple, and key collisions are exactly md5
collisions. -/
structure RecommendationCache (K V : Type) where
  cache : List (K × RecCacheEntry V) := []
  ttl_seconds : ℚ := 3600

/-- `RecommendationCache._generate_key`
(`recommendation_service.py:138-152`). -/
def generate_key {K : Type} (md5json : String × String × String → K)
    (user_id search_term tier : String) : K :=
  md5json (user_id, pyLower search_term, tier)

/-- `RecommendationCache.get` (`recommendation_service.py:154-181`): return
the stored data unless the key is missing or the entry is expired
(`datetime.now() > entry["expiration"]`); an expired entry is deleted.
Returns the result and the possibly-updated cache; `now` is
`datetime.now()`. -/
def cache_get {K V : Type} [DecidableEq K]
    (md5json : String × String × String → K)
    (c : RecommendationCache K V) (now : ℚ)
    (user_id search_term tier : String) :
    Option V × RecommendationCache K V :=
  let key := generate_key md5json user_id search_term tier
  match alookup key c.cache with
  | some entry =>
      if entry.expiration < now then
        (none, { c with cache := adelete key c.cache })
      else (some entry.data, c)
  | none => (none, c)

/-- `RecommendationCache.set` (`recommendation_service.py:183-201`):
store the data under the generated key with expiration `now + ttl`. -/
def cache_set {K V : Type} [DecidableEq K]
    (md5json : String × String × String → K)
    (c : RecommendationCache K V) (now : ℚ)
    (user_id search_term tier : String) (data : V) :
    RecommendationCache K V :=
  let key := generate_key md5json user_id search_term tier
  { c with cache :=
      (aset key { data := data, expiration := now + c.ttl_seconds } c.cache) }

/-- `RecommendationCache.invalidate` (`recommendation_service.py:203-216`):
delete the entry for the generated key, when present. -/
def cache_invalidate {K V : Type} [DecidableEq K]
    (md5json : String × String × String → K)
    (c : RecommendationCache K V)
    (user_id search_term tier : String) : RecommendationCache K V :=
  let key := generate_key md5json user_id search_term tier
  { c with cache := adelete key c.cache }

/-- C10: for the `RecommendationCache`: a `get` of the same
(user, term, tier) after a `set`, performed at or before the entry's
expiration instant, returns exactly the stored data; a `get` after
`invalidate` of the same key returns `None` (given the dict invariant of
distinct keys); and — md5 modelled as collision-free, i.e. the abstract
digest is injective — keys of triples differing in user id, lowercased
term, or tier never alias. -/
theorem recommendation_cache_spec {K V : Type} [DecidableEq K]
    (md5json : String × String × String → K)
    (c : RecommendationCache K V) (u t tier : String) (d : V)
    (tset tget : ℚ) :
    (¬ (tset + c.ttl_seconds < tget) →
      (cache_get md5json (cache_set md5json c tset u t tier d) tget
        u t tier).1 = some d)
    ∧ ((c.cache.map Prod.fst).Nodup →
      (cache_get md5json (cache_invalidate md5json c u t tier) tget
        u t tier).1 = none)
    ∧ (Function.Injective md5json → ∀ u' t' tier' : String,
        (u, pyLower t, tier) ≠ (u', pyLower t', tier') →
        generate_key md5json u t tier ≠ generate_key md5json u' t' tier') := by
  refine ⟨?_, ?_, ?_⟩
  · intro hfresh
    unfold cache_get cache_set
    simp only
    rw [alookup_aset_self]
    simp only
    rw [if_neg (by simpa using hfresh)]
  · intro hnd
    unfold cache_get cache_invalidate
    simp only
    rw [alookup_adelete_self hnd]
  · intro hinj u' t' tier' hne
    intro heq
    exact hne (hinj heq)

/-- Witness for C10 at concrete input: key type `String × String × String`
with the identity digest (trivially injective); a set at time 0 with TTL
3600 read back at time 10 yields the stored value, and distinct user ids
produce distinct keys. -/
theorem recommendation_cache_spec_witness :
    (cache_get (fun p => p)
        (cache_set (fun p => p)
          ({ cache := [], ttl_seconds := 3600 } :
            RecommendationCache (String × String × String) Nat)
          0 "alice" "Dune" "standard" 42)
        10 "alice" "Dune" "standard").1 = some 42
    ∧ generate_key (fun p => (p : String × String × String))
        "alice" "Dune" "standard"
      ≠ generate_key (fun p => p) "bob" "Dune" "standard" := by
  have h := recommendation_cache_spec
    (fun p => (p : String × String × String))
    ({ cache := [], ttl_seconds := 3600 } :
      RecommendationCache (String × String × String) Nat)
    "alice" "Dune" "standard" 42 0 10
  refine ⟨h.1 (by norm_num), ?_⟩
  apply h.2.2 (fun a b hab => hab) "bob" "Dune" "standard"
  decide
